import Mathlib

/-!
Shallow embedding of the dashboard core from `app.py`: the column classifier
(lines 113-114 and 139-140), the filter pipeline (lines 126-149), the chart
dispatcher (lines 233-333) and the empty-result guard (lines 153-156).
Dataframes are modelled as lists of named, dtype-tagged columns of values;
a missing cell (pandas NaN in an object column) is the value `Value.na`.
-/

namespace Dash

/-- A pandas dtype, as seen by `select_dtypes`: numeric kinds versus the rest. -/
inductive Dtype where
  | numeric
  | object
deriving DecidableEq

/-- A cell value: missing (NaN), a number, or a text value. -/
inductive Value where
  | na
  | num (q : ℚ)
  | str (s : String)
deriving DecidableEq

/-- A named column with its declared dtype and cell values. -/
structure Col where
  name : String
  dtype : Dtype
  values : List Value
deriving DecidableEq

/-- A dataframe: an ordered sequence of columns. -/
structure DF where
  cols : List Col
deriving DecidableEq

def DF.names (d : DF) : List String :=
  d.cols.map (fun c => c.name)

/-- `len(df)` in pandas: the number of rows (0 for a columnless frame). -/
def DF.nrows (d : DF) : Nat :=
  match d.cols with
  | [] => 0
  | c :: _ => c.values.length

/-- Well-formedness: all columns have the common row count. -/
def DF.WF (d : DF) : Prop :=
  ∀ c ∈ d.cols, c.values.length = d.nrows

instance (d : DF) : Decidable d.WF :=
  inferInstanceAs (Decidable (∀ c ∈ d.cols, c.values.length = d.nrows))

/-- `df.select_dtypes(include="number").columns.tolist()` (app.py line 113). -/
def numColsOf (d : DF) : List String :=
  (d.cols.filter (fun c => decide (c.dtype = Dtype.numeric))).map (fun c => c.name)

/-- `df.select_dtypes(exclude="number").columns.tolist()` (app.py line 114). -/
def catColsOf (d : DF) : List String :=
  (d.cols.filter (fun c => decide (¬ c.dtype = Dtype.numeric))).map (fun c => c.name)

/-- `[col for col in num_cols if col in selected_cols]` (app.py lines 139-140). -/
def updateCols (cols sel : List String) : List String :=
  cols.filter (fun c => decide (c ∈ sel))

/-- `df[name]` column lookup: first column carrying the name, if any. -/
def DF.col? (d : DF) (nm : String) : Option Col :=
  d.cols.find? (fun c => decide (c.name = nm))

/-- The cell values of a named column (empty when the column is absent). -/
def DF.colValues (d : DF) (nm : String) : List Value :=
  match d.col? nm with
  | some c => c.values
  | none => []

/-- `df.head(n)` (app.py line 131): first `n` rows of every column. -/
def DF.head (d : DF) (n : Nat) : DF :=
  ⟨d.cols.map (fun c => ⟨c.name, c.dtype, c.values.take n⟩)⟩

/-- `df[selected_cols]` (app.py line 137): the named columns in the given
order; `none` when a name is absent (pandas raises `KeyError`). -/
def selectCols (d : DF) : List String → Option (List Col)
  | [] => some []
  | nm :: rest =>
    match d.col? nm, selectCols d rest with
    | some c, some cs => some (c :: cs)
    | _, _ => none

def DF.select (d : DF) (sel : List String) : Option DF :=
  (selectCols d sel).map DF.mk

/-- Keep the entries of `vals` at the positions where `mask` is `true`
(the boolean-mask row filter `df[df[col].isin(vals)]`). -/
def applyMask (vals : List Value) (mask : List Bool) : List Value :=
  ((vals.zip mask).filter (fun p => p.2)).map (fun p => p.1)

def maskCols (cols : List Col) (mask : List Bool) : List Col :=
  cols.map (fun c => ⟨c.name, c.dtype, applyMask c.values mask⟩)

/-- The category filter (app.py lines 146-149).  When a filter column is
chosen the column is read (line 147 evaluates `df_filtered[filter_col]`, so
a missing column is a failure); an empty selected-value list skips the
row filter (line 148 `if filter_values:`); otherwise rows whose value in the
filter column lies in the selected values are kept (line 149). -/
def catFilterStep (v : DF) : Option String → List Value → Option DF
  | none, _ => some v
  | some fc, fvals =>
    match v.col? fc with
    | none => none
    | some col =>
      if fvals.isEmpty then some v
      else some ⟨maskCols v.cols (col.values.map (fun a => decide (a ∈ fvals)))⟩

/-- A Filter Spec: the row limit, the included columns, and the optional
category filter, exactly the inputs of app.py lines 130, 135, 145, 147. -/
structure FilterSpec where
  rowLimit : Nat
  selectedCols : List String
  filterCol : Option String
  filterValues : List Value
deriving DecidableEq

/-- The filter pipeline (app.py lines 126-149): `head(row_limit)`, then the
column restriction (skipped when `selected_cols` is empty, line 136), then
the category filter. -/
def applyFilter (d : DF) (s : FilterSpec) : Option DF :=
  let v1 := d.head s.rowLimit
  match (if s.selectedCols.isEmpty then some v1 else v1.select s.selectedCols) with
  | none => none
  | some v2 => catFilterStep v2 s.filterCol s.filterValues

/-- Lexicographic comparison of character lists (string ordering). -/
def charListLtB : List Char → List Char → Bool
  | [], [] => false
  | [], _ :: _ => true
  | _ :: _, [] => false
  | a :: s, b :: t =>
    if a.val < b.val then true
    else if b.val < a.val then false
    else charListLtB s t

/-- A total order on cell values used for the sorted group keys that
`groupby(...).size()` produces. -/
def Value.leB : Value → Value → Bool
  | .na, _ => true
  | .num _, .na => false
  | .num p, .num q => decide (p ≤ q)
  | .num _, .str _ => true
  | .str _, .na => false
  | .str _, .num _ => false
  | .str s, .str t => charListLtB s.data t.data || decide (s = t)

def insertSorted (a : Value) : List Value → List Value
  | [] => [a]
  | b :: t => if Value.leB a b then a :: b :: t else b :: insertSorted a t

def sortVals : List Value → List Value
  | [] => []
  | a :: t => insertSorted a (sortVals t)

/-- The distinct values of a list in first-appearance order. -/
def dedupVals : List Value → List Value
  | [] => []
  | a :: t => a :: (dedupVals t).filter (fun b => decide (¬ b = a))

/-- `df.groupby(x).size()` (app.py lines 278 and 289): one entry per distinct
non-missing value of the column, keys sorted, each paired with the number of
rows carrying that value (rows with a missing key belong to no group). -/
def groupSize (vals : List Value) : List (Value × Nat) :=
  let vs := vals.filter (fun a => decide (¬ a = Value.na))
  (sortVals (dedupVals vs)).map (fun k => (k, vs.count k))

/-- The numeric reading of a column: a number per row, `none` for a missing
or non-numeric cell. -/
def numOpt (vals : List Value) : List (Option ℚ) :=
  vals.map (fun a =>
    match a with
    | .num q => some q
    | _ => none)

def DF.numValues (d : DF) (nm : String) : List (Option ℚ) :=
  numOpt (d.colValues nm)

/-- The rows where both series have a value: pandas computes each pairwise
correlation over the pairwise-complete observations. -/
def pairComplete (xs ys : List (Option ℚ)) : List (ℚ × ℚ) :=
  (xs.zip ys).filterMap (fun p =>
    match p with
    | (some a, some b) => some (a, b)
    | _ => none)

def qmean (l : List ℚ) : ℚ := l.sum / l.length

/-- The centered cross-deviation sum of a list of pairs: the shared
numerator and denominator pieces of the Pearson coefficient (the `1/(n-1)`
factors of covariance and variance cancel in the ratio). -/
def sAB (ps : List (ℚ × ℚ)) : ℚ :=
  let mx := qmean (ps.map (fun p => p.1))
  let my := qmean (ps.map (fun p => p.2))
  (ps.map (fun p => (p.1 - mx) * (p.2 - my))).sum

def sXX (xs ys : List (Option ℚ)) : ℚ :=
  sAB ((pairComplete xs ys).map (fun p => (p.1, p.1)))

def sYY (xs ys : List (Option ℚ)) : ℚ :=
  sAB ((pairComplete xs ys).map (fun p => (p.2, p.2)))

/-- One entry of `df[num_cols].corr()`: the Pearson coefficient of the two
series over their pairwise-complete rows, `none` standing for the NaN pandas
emits when either centered square sum vanishes (constant series, fewer than
two complete observations). -/
noncomputable def corrEntry (xs ys : List (Option ℚ)) : Option ℝ :=
  if sXX xs ys = 0 ∨ sYY xs ys = 0 then none
  else some ((sAB (pairComplete xs ys) : ℝ) /
    Real.sqrt ((sXX xs ys : ℝ) * (sYY xs ys : ℝ)))

/-- `df_filtered[num_cols].corr()` (app.py line 307): the square matrix of
pairwise Pearson coefficients over all current numeric columns. -/
noncomputable def corrMatrix (v : DF) (ncols : List String) : List (List (Option ℝ)) :=
  ncols.map (fun i => ncols.map (fun j => corrEntry (v.numValues i) (v.numValues j)))

/-- The eleven chart kinds of the sidebar radio control (app.py line 45). -/
inductive ChartType where
  | bar
  | line
  | scatter
  | histogram
  | boxPlot
  | pie
  | donut
  | sunburst
  | heatmap
  | violin
  | area
deriving DecidableEq

/-- The figure payload handed to the renderer: the arguments of the
`plotly.express` call each branch makes. -/
inductive ChartPayload where
  | bar (v : DF) (x y : String) (g : Option String)
  | line (v : DF) (x y : String) (g : Option String)
  | scatter (v : DF) (x y : String) (g : Option String)
  | histogram (v : DF) (x : String) (g : Option String)
  | boxPlot (v : DF) (x y : String) (g : Option String)
  | pie (counts : List (Value × Nat)) (title : String)
  | donut (counts : List (Value × Nat)) (title : String)
  | sunburst (v : DF) (x y : String) (title : String)
  | heatmap (m : List (List (Option ℝ)))
  | violin (v : DF) (x y : String) (g : Option String)
  | area (v : DF) (x y : String) (g : Option String)

/-- A chart request outcome: a figure, or the validation message the app
shows with `st.warning` (`error_msg` in app.py). -/
inductive ChartResult where
  | chart (p : ChartPayload)
  | failure (msg : String)

def warnY : String := "⚠️ Please select a numeric Y axis"

def notNumericScatterMsg (x : String) : String :=
  "⚠️ X axis \x27" ++ x ++ "\x27 is not numeric. Scatter needs numeric X & Y"

def notNumericMsg (x : String) : String :=
  "⚠️ X axis \x27" ++ x ++ "\x27 is not numeric"

def notCategoricalMsg (x : String) : String :=
  "⚠️ X axis \x27" ++ x ++ "\x27 is not categorical"

def sunburstMsg : String := "⚠️ Sunburst needs categorical X and numeric Y"

def heatmapMsg : String := "⚠️ Heatmap needs at least 2 numeric columns"

def noDataMsg : String := "⚠️ No data to display"

def distTitle (x : String) : String := "Distribution of " ++ x

/-- The chart dispatcher (app.py lines 233-324): one branch per chart kind,
validating the selected axes against the current numeric and categorical
column lists and either building the figure payload or reporting why not. -/
noncomputable def dispatch (v : DF) (nc cc : List String) (ct : ChartType)
    (x : String) (y g : Option String) : ChartResult :=
  match ct with
  | .bar =>
    match y with
    | some yc => .chart (.bar v x yc g)
    | none => .failure warnY
  | .line =>
    match y with
    | some yc => .chart (.line v x yc g)
    | none => .failure warnY
  | .scatter =>
    match y with
    | none => .failure warnY
    | some yc =>
      if x ∉ nc then .failure (notNumericScatterMsg x)
      else .chart (.scatter v x yc g)
  | .histogram =>
    if x ∈ nc then .chart (.histogram v x g)
    else .failure (notNumericMsg x)
  | .boxPlot =>
    match y with
    | none => .failure warnY
    | some yc =>
      if x ∉ cc then .failure (notCategoricalMsg x)
      else .chart (.boxPlot v x yc g)
  | .pie =>
    if x ∉ cc then .failure (notCategoricalMsg x)
    else
      let agg := groupSize (v.colValues x)
      if agg.length > 0 then .chart (.pie agg (distTitle x))
      else .failure noDataMsg
  | .donut =>
    if x ∉ cc then .failure (notCategoricalMsg x)
    else
      let agg := groupSize (v.colValues x)
      if agg.length > 0 then .chart (.donut agg (distTitle x))
      else .failure noDataMsg
  | .sunburst =>
    match y with
    | none => .failure sunburstMsg
    | some yc =>
      if x ∉ cc ∨ yc ∉ nc then .failure sunburstMsg
      else .chart (.sunburst v x yc ("Sunburst: " ++ x))
  | .heatmap =>
    if nc.length < 2 then .failure heatmapMsg
    else .chart (.heatmap (corrMatrix v nc))
  | .violin =>
    match y with
    | none => .failure warnY
    | some yc =>
      if x ∉ cc then .failure (notCategoricalMsg x)
      else .chart (.violin v x yc g)
  | .area =>
    match y with
    | some yc => .chart (.area v x yc g)
    | none => .failure warnY

/-- The Y-axis selector options (app.py line 223):
`[None] + num_cols if num_cols else [None]`. -/
def yAxisOptions (nc : List String) : List (Option String) :=
  if nc.isEmpty then [none] else none :: nc.map some

def emptyFilterWarning : String := "⚠️ No data matches your filters. Please adjust filters."

/-- How one interaction of the script ends. -/
inductive Outcome where
  | emptyDataset
  | noValidColumns
  | filterError
  | emptyFilteredWarning (msg : String)
  | page (chart : ChartResult)

/-- The script flow for one interaction once a dataset is loaded: the
empty-dataset stop (app.py line 102), the no-columns stop (line 116), the
classifier (lines 113-114) and its update (lines 139-140), the filter
pipeline, the empty-filtered-view stop (lines 153-156), and then the chart
tab dispatch. -/
noncomputable def runInteraction (d : DF) (s : FilterSpec) (ct : ChartType)
    (x : String) (y g : Option String) : Outcome :=
  if d.nrows = 0 then .emptyDataset
  else
    let nc := numColsOf d
    let cc := catColsOf d
    if nc = [] ∧ cc = [] then .noValidColumns
    else
      let nc2 := if s.selectedCols.isEmpty then nc else updateCols nc s.selectedCols
      let cc2 := if s.selectedCols.isEmpty then cc else updateCols cc s.selectedCols
      match applyFilter d s with
      | none => .filterError
      | some v =>
        if v.nrows = 0 then .emptyFilteredWarning emptyFilterWarning
        else .page (dispatch v nc2 cc2 ct x y g)

/-- The Region/Sales example table of the spec's end-to-end scenario. -/
def dRS : DF :=
  ⟨[⟨"Region", .object, [.str "North", .str "South", .str "North"]⟩,
    ⟨"Sales", .numeric, [.num 10, .num 20, .num 30]⟩]⟩

/-- A one-column table whose categorical column has one value and one
missing cell. -/
def dNA : DF := ⟨[⟨"X", .object, [.str "A", .na]⟩]⟩

/-- Two numeric columns, the first constant. -/
def dConst : DF :=
  ⟨[⟨"A", .numeric, [.num 1, .num 1]⟩, ⟨"B", .numeric, [.num 1, .num 2]⟩]⟩

/-- Two numeric columns, both non-constant. -/
def dVar : DF :=
  ⟨[⟨"A", .numeric, [.num 0, .num 1]⟩, ⟨"B", .numeric, [.num 2, .num 0]⟩]⟩

/-- The Region/Sales table with all rows filtered away. -/
def vEmptyRows : DF :=
  ⟨[⟨"Region", .object, []⟩, ⟨"Sales", .numeric, []⟩]⟩

/-- The Region/Sales table reduced to its first North row. -/
def vNorth : DF :=
  ⟨[⟨"Region", .object, [.str "North"]⟩, ⟨"Sales", .numeric, [.num 10]⟩]⟩

def sColSales : FilterSpec := ⟨2, ["Sales"], none, []⟩

def sAll : FilterSpec := ⟨2, [], none, []⟩

def sNorth : FilterSpec := ⟨2, ["Region", "Sales"], some "Region", [.str "North"]⟩

def sNowhere : FilterSpec := ⟨3, [], some "Region", [.str "Nowhere"]⟩

lemma col?_name {d : DF} {nm : String} {c : Col} (h : d.col? nm = some c) :
    c.name = nm := by
  have := List.find?_some h
  simpa using this

lemma col?_mem {d : DF} {nm : String} {c : Col} (h : d.col? nm = some c) :
    c ∈ d.cols :=
  List.mem_of_find?_eq_some h

lemma col?_isSome_of_mem_names {d : DF} {nm : String} (h : nm ∈ d.names) :
    ∃ c, d.col? nm = some c := by
  rcases List.mem_map.1 h with ⟨c, hc, hcn⟩
  have : (d.cols.find? (fun c => decide (c.name = nm))).isSome := by
    rw [List.find?_isSome]
    exact ⟨c, hc, by simpa using hcn⟩
  rcases Option.isSome_iff_exists.1 this with ⟨c', hc'⟩
  exact ⟨c', hc'⟩

lemma mem_names_of_col? {d : DF} {nm : String} {c : Col} (h : d.col? nm = some c) :
    nm ∈ d.names :=
  List.mem_map.2 ⟨c, col?_mem h, col?_name h⟩

lemma names_head (d : DF) (n : Nat) : (d.head n).names = d.names := by
  simp [DF.head, DF.names, List.map_map, Function.comp]

lemma nrows_head (d : DF) (n : Nat) : (d.head n).nrows = min n d.nrows := by
  rcases d with ⟨cols⟩
  cases cols with
  | nil => simp [DF.head, DF.nrows]
  | cons c t => simp [DF.head, DF.nrows]

lemma WF_head {d : DF} (h : d.WF) (n : Nat) : (d.head n).WF := by
  intro c' hc'
  rcases List.mem_map.1 hc' with ⟨c, hc, rfl⟩
  simp [nrows_head, List.length_take, h c hc]

lemma head_fix {v : DF} {n : Nat} (hwf : v.WF) (h : v.nrows ≤ n) :
    v.head n = v := by
  rcases v with ⟨cols⟩
  have h1 : ∀ c ∈ cols, (⟨c.name, c.dtype, c.values.take n⟩ : Col) = c := by
    intro c hc
    have hlen : c.values.length ≤ n := by
      have := hwf c hc
      omega
    simp [List.take_of_length_le hlen]
  have : cols.map (fun c => (⟨c.name, c.dtype, c.values.take n⟩ : Col)) = cols := by
    rw [List.map_congr_left h1]
    simp
  simp [DF.head, this]

lemma selectCols_some_of_subset {d : DF} {sel : List String}
    (h : ∀ nm ∈ sel, nm ∈ d.names) : ∃ cs, selectCols d sel = some cs := by
  induction sel with
  | nil => exact ⟨[], rfl⟩
  | cons a t ih =>
    rcases col?_isSome_of_mem_names (h a (by simp)) with ⟨c, hc⟩
    rcases ih (fun nm hnm => h nm (by simp [hnm])) with ⟨cs, hcs⟩
    exact ⟨c :: cs, by simp [selectCols, hc, hcs]⟩

lemma selectCols_names {d : DF} {sel : List String} {cs : List Col}
    (h : selectCols d sel = some cs) : cs.map (fun c => c.name) = sel := by
  induction sel generalizing cs with
  | nil =>
    have : cs = [] := by simpa [selectCols] using h.symm
    subst this; rfl
  | cons a t ih =>
    rw [selectCols] at h
    rcases hca : d.col? a with _ | c
    · rw [hca] at h; exact absurd h (by simp)
    rcases hct : selectCols d t with _ | cs'
    · rw [hca, hct] at h; exact absurd h (by simp)
    rw [hca, hct] at h
    have hcs : cs = c :: cs' := by
      have := h
      simpa using this.symm
    subst hcs
    simp [ih hct, col?_name hca]

lemma selectCols_mem {d : DF} {sel : List String} {cs : List Col}
    (h : selectCols d sel = some cs) : ∀ c ∈ cs, c ∈ d.cols := by
  induction sel generalizing cs with
  | nil =>
    have : cs = [] := by simpa [selectCols] using h.symm
    subst this; simp
  | cons a t ih =>
    rw [selectCols] at h
    rcases hca : d.col? a with _ | c
    · rw [hca] at h; exact absurd h (by simp)
    rcases hct : selectCols d t with _ | cs'
    · rw [hca, hct] at h; exact absurd h (by simp)
    rw [hca, hct] at h
    have hcs : cs = c :: cs' := by simpa using h.symm
    subst hcs
    intro c' hc'
    rcases hc' with _ | hc'
    · exact col?_mem hca
    · exact ih hct c' (by assumption)

def defCol : Col := ⟨"", .object, []⟩

lemma selectCols_eq_map {d : DF} {sel : List String} {cs : List Col}
    (h : selectCols d sel = some cs) :
    cs = sel.map (fun nm => (d.col? nm).getD defCol)
      ∧ ∀ nm ∈ sel, (d.col? nm).isSome := by
  induction sel generalizing cs with
  | nil =>
    have : cs = [] := by simpa [selectCols] using h.symm
    subst this; simp
  | cons a t ih =>
    rw [selectCols] at h
    rcases hca : d.col? a with _ | c
    · rw [hca] at h; exact absurd h (by simp)
    rcases hct : selectCols d t with _ | cs'
    · rw [hca, hct] at h; exact absurd h (by simp)
    rw [hca, hct] at h
    have hcs : cs = c :: cs' := by simpa using h.symm
    subst hcs
    rcases ih hct with ⟨h1, h2⟩
    constructor
    · simp [hca, ← h1]
    · intro nm hnm
      rcases hnm with _ | hnm
      · simp [hca]
      · exact h2 nm (by assumption)

lemma applyMask_length_le (vals : List Value) (mask : List Bool) :
    (applyMask vals mask).length ≤ vals.length := by
  calc (applyMask vals mask).length
      ≤ (vals.zip mask).length := by
        simpa [applyMask] using List.length_filter_le _ (vals.zip mask)
    _ ≤ vals.length := by simp [List.length_zip]

lemma applyMask_length_eq {vals : List Value} {mask : List Bool}
    (h : vals.length = mask.length) :
    (applyMask vals mask).length = (mask.filter (fun b => b)).length := by
  induction mask generalizing vals with
  | nil =>
    have : vals = [] := List.length_eq_zero.1 (by simpa using h)
    subst this; rfl
  | cons b mt ih =>
    cases vals with
    | nil => simp at h
    | cons a vt =>
      have ht : vt.length = mt.length := by simpa using h
      cases b with
      | true => simp [applyMask, List.filter] at ih ⊢; simpa using ih ht
      | false => simp [applyMask, List.filter] at ih ⊢; simpa using ih ht

lemma applyMask_map_self (vals : List Value) (p : Value → Bool) :
    applyMask vals (vals.map p) = vals.filter p := by
  induction vals with
  | nil => rfl
  | cons a t ih =>
    cases hb : p a with
    | true => simp [applyMask, List.filter, hb] at ih ⊢; exact ih
    | false => simp [applyMask, List.filter, hb] at ih ⊢; exact ih

lemma applyMask_all_true {vals : List Value} {mask : List Bool}
    (hlen : vals.length ≤ mask.length) (ht : ∀ b ∈ mask, b = true) :
    applyMask vals mask = vals := by
  induction vals generalizing mask with
  | nil => simp [applyMask]
  | cons a t ih =>
    cases mask with
    | nil => simp at hlen
    | cons b mt =>
      have hb : b = true := ht b (by simp)
      subst hb
      have : applyMask t mt = t :=
        ih (by simpa using hlen) (fun b hb => ht b (by simp [hb]))
      simp [applyMask] at this ⊢
      exact this

lemma find?_map_pres (f : Col → Col) (hf : ∀ c, (f c).name = c.name)
    (cols : List Col) (nm : String) :
    (cols.map f).find? (fun c => decide (c.name = nm))
      = (cols.find? (fun c => decide (c.name = nm))).map f := by
  induction cols with
  | nil => rfl
  | cons c t ih =>
    by_cases h : c.name = nm
    · rw [List.map_cons, List.find?_cons_of_pos _ (by simp [hf, h]),
        List.find?_cons_of_pos _ (by simp [h])]
      simp
    · rw [List.map_cons, List.find?_cons_of_neg _ (by simp [hf, h]),
        List.find?_cons_of_neg _ (by simp [h]), ih]

lemma col?_maskCols (v : DF) (mask : List Bool) (nm : String) :
    (DF.mk (maskCols v.cols mask)).col? nm
      = (v.col? nm).map (fun c => ⟨c.name, c.dtype, applyMask c.values mask⟩) := by
  simpa [DF.col?, maskCols] using
    find?_map_pres (fun c => ⟨c.name, c.dtype, applyMask c.values mask⟩)
      (fun c => rfl) v.cols nm

lemma names_maskCols (cols : List Col) (mask : List Bool) :
    (DF.mk (maskCols cols mask)).names = (DF.mk cols).names := by
  simp [DF.names, maskCols, List.map_map, Function.comp]

lemma select_parts {d : DF} {sel : List String} {v : DF} (h : d.select sel = some v) :
    ∃ cs, selectCols d sel = some cs ∧ v = DF.mk cs := by
  rcases Option.map_eq_some'.1 h with ⟨cs, h1, h2⟩
  exact ⟨cs, h1, h2.symm⟩

lemma select_names {d : DF} {sel : List String} {v : DF} (h : d.select sel = some v) :
    v.names = sel := by
  rcases select_parts h with ⟨cs, h1, rfl⟩
  exact selectCols_names h1

lemma select_nrows {d : DF} {sel : List String} {v : DF} (hwf : d.WF)
    (h : d.select sel = some v) (hne : sel ≠ []) : v.nrows = d.nrows := by
  rcases select_parts h with ⟨cs, h1, rfl⟩
  cases cs with
  | nil => exact absurd (selectCols_names h1).symm (by simpa using hne)
  | cons c0 t =>
    have h0 := hwf c0 (selectCols_mem h1 c0 (by simp))
    simpa [DF.nrows] using h0

lemma select_WF {d : DF} {sel : List String} {v : DF} (hwf : d.WF)
    (h : d.select sel = some v) : v.WF := by
  rcases select_parts h with ⟨cs, h1, rfl⟩
  cases cs with
  | nil => intro c hc; simp at hc
  | cons c0 t =>
    intro c hc
    have h0 := hwf c0 (selectCols_mem h1 c0 (by simp))
    have hcl := hwf c (selectCols_mem h1 c hc)
    show c.values.length = c0.values.length
    rw [hcl, h0]

lemma catFilter_id_or_mask {v : DF} {fc : Option String} {fvals : List Value}
    {w : DF} (h : catFilterStep v fc fvals = some w) :
    w = v ∨ ∃ c col, fc = some c ∧ v.col? c = some col ∧ fvals ≠ []
      ∧ w = DF.mk (maskCols v.cols (col.values.map (fun a => decide (a ∈ fvals)))) := by
  cases fc with
  | none =>
    left
    have hvw : v = w := by simpa [catFilterStep] using h
    exact hvw.symm
  | some c =>
    rcases hc : v.col? c with _ | col
    · simp [catFilterStep, hc] at h
    simp only [catFilterStep, hc] at h
    by_cases hfe : fvals.isEmpty
    · rw [if_pos hfe] at h
      left; exact (Option.some.inj h).symm
    · rw [if_neg hfe] at h
      right
      refine ⟨c, col, rfl, hc, ?_, (Option.some.inj h).symm⟩
      intro hnil; subst hnil; simp at hfe

lemma nrows_maskCols {v : DF} {mask : List Bool} (hwf : v.WF)
    (hm : mask.length = v.nrows) :
    (DF.mk (maskCols v.cols mask)).nrows = (mask.filter (fun b => b)).length := by
  rcases hv : v.cols with _ | ⟨c0, t⟩
  · have h0 : v.nrows = 0 := by simp [DF.nrows, hv]
    have hm0 : mask = [] := List.length_eq_zero.1 (by rw [hm, h0])
    subst hm0; simp [maskCols, hv, DF.nrows]
  · have hc0 : c0 ∈ v.cols := by rw [hv]; simp
    have h1 := @applyMask_length_eq c0.values mask ((hwf c0 hc0).trans hm.symm)
    simp [DF.nrows, maskCols, hv, h1]

lemma catFilter_facts {v : DF} {fc : Option String} {fvals : List Value} {w : DF}
    (hwf : v.WF) (h : catFilterStep v fc fvals = some w) :
    w.WF ∧ w.nrows ≤ v.nrows ∧ w.names = v.names := by
  rcases catFilter_id_or_mask h with rfl | ⟨c, col, hfc, hcol, hne, rfl⟩
  · exact ⟨hwf, le_refl _, rfl⟩
  · have hm : (col.values.map (fun a => decide (a ∈ fvals))).length = v.nrows := by
      simp [hwf col (col?_mem hcol)]
    refine ⟨?_, ?_, names_maskCols _ _⟩
    · intro c2 hc2
      rcases List.mem_map.1 hc2 with ⟨c0, hc0, rfl⟩
      have h1 := @applyMask_length_eq c0.values
        (col.values.map (fun a => decide (a ∈ fvals)))
        ((hwf c0 hc0).trans hm.symm)
      rw [nrows_maskCols hwf hm]
      exact h1
    · rw [nrows_maskCols hwf hm]
      calc ((col.values.map (fun a => decide (a ∈ fvals))).filter (fun b => b)).length
          ≤ (col.values.map (fun a => decide (a ∈ fvals))).length :=
            List.length_filter_le _ _
        _ = v.nrows := hm

/-- Claim C1, amended: for a well-formed dataset and a Filter Spec whose
included columns are dataset columns and whose category-filter column (if
any) is among the surviving columns, the pipeline succeeds, the view has at
most `min(row_limit, original rows)` rows, and — when `included_columns` is
non-empty — the view's columns all come from `included_columns`.  (An empty
`included_columns` skips the column restriction and keeps every column.) -/
theorem C1_apply_total_bounds (d : DF) (s : FilterSpec) (hwf : d.WF)
    (hsel : ∀ nm ∈ s.selectedCols, nm ∈ d.names)
    (hfc : ∀ c, s.filterCol = some c →
      c ∈ (if s.selectedCols.isEmpty then d.names else s.selectedCols)) :
    ∃ v, applyFilter d s = some v ∧ v.nrows ≤ min s.rowLimit d.nrows
      ∧ (¬ s.selectedCols.isEmpty → ∀ nm ∈ v.names, nm ∈ s.selectedCols) := by
  have hwf1 : (d.head s.rowLimit).WF := WF_head hwf _
  have hn1 : (d.head s.rowLimit).nrows = min s.rowLimit d.nrows := nrows_head d _
  by_cases hB : s.selectedCols.isEmpty
  · have hnames1 : (d.head s.rowLimit).names = d.names := names_head d _
    have hcat : ∃ w, catFilterStep (d.head s.rowLimit) s.filterCol s.filterValues
        = some w := by
      cases hf : s.filterCol with
      | none => exact ⟨_, rfl⟩
      | some c =>
        have hc : c ∈ (d.head s.rowLimit).names := by
          rw [hnames1]
          have := hfc c hf
          rwa [if_pos hB] at this
        rcases col?_isSome_of_mem_names hc with ⟨col, hcol⟩
        by_cases hfe : s.filterValues.isEmpty
        · exact ⟨d.head s.rowLimit, by simp [catFilterStep, hcol, hfe]⟩
        · exact ⟨⟨maskCols (d.head s.rowLimit).cols
            (col.values.map (fun a => decide (a ∈ s.filterValues)))⟩,
            by simp [catFilterStep, hcol, hfe]⟩
    rcases hcat with ⟨w, hw⟩
    rcases catFilter_facts hwf1 hw with ⟨hwWF, hwle, hwnames⟩
    refine ⟨w, ?_, ?_, ?_⟩
    · simp only [applyFilter]
      rw [if_pos hB]
      exact hw
    · rw [← hn1]; exact hwle
    · intro hne; exact absurd hB hne
  · have hsel1 : ∀ nm ∈ s.selectedCols, nm ∈ (d.head s.rowLimit).names := by
      intro nm hnm; rw [names_head]; exact hsel nm hnm
    rcases selectCols_some_of_subset hsel1 with ⟨cs, hcs⟩
    have hsv : (d.head s.rowLimit).select s.selectedCols = some (DF.mk cs) := by
      simp [DF.select, hcs]
    have hne : s.selectedCols ≠ [] := by simpa using hB
    have hwf2 : (DF.mk cs).WF := select_WF hwf1 hsv
    have hn2 : (DF.mk cs).nrows = (d.head s.rowLimit).nrows :=
      select_nrows hwf1 hsv hne
    have hnames2 : (DF.mk cs).names = s.selectedCols := select_names hsv
    have hcat : ∃ w, catFilterStep (DF.mk cs) s.filterCol s.filterValues
        = some w := by
      cases hf : s.filterCol with
      | none => exact ⟨_, rfl⟩
      | some c =>
        have hc : c ∈ (DF.mk cs).names := by
          rw [hnames2]
          have := hfc c hf
          rwa [if_neg hB] at this
        rcases col?_isSome_of_mem_names hc with ⟨col, hcol⟩
        by_cases hfe : s.filterValues.isEmpty
        · exact ⟨DF.mk cs, by simp [catFilterStep, hcol, hfe]⟩
        · exact ⟨⟨maskCols cs
            (col.values.map (fun a => decide (a ∈ s.filterValues)))⟩,
            by simp [catFilterStep, hcol, hfe]⟩
    rcases hcat with ⟨w, hw⟩
    rcases catFilter_facts hwf2 hw with ⟨hwWF, hwle, hwnames⟩
    refine ⟨w, ?_, ?_, ?_⟩
    · simp only [applyFilter]
      rw [if_neg hB, hsv]
      exact hw
    · calc w.nrows ≤ (DF.mk cs).nrows := hwle
        _ = (d.head s.rowLimit).nrows := hn2
        _ = min s.rowLimit d.nrows := hn1
    · intro _ nm hnm
      rw [hwnames, hnames2] at hnm
      exact hnm

/-- Claim C1, counterexample: with an empty `included_columns` the code
keeps every column (app.py line 136 `if selected_cols:`), so the returned
view's column set is not a subset of the spec's included columns. -/
theorem C1_cex_empty_included :
    applyFilter dNA sAll = some dNA ∧ dNA.names = ["X"]
      ∧ sAll.selectedCols = [] ∧ "X" ∉ sAll.selectedCols :=
  ⟨rfl, rfl, rfl, by decide⟩

/-- C1 witness at the Region/Sales table with `included_columns = [Sales]`. -/
theorem C1_apply_total_bounds_witness :
    (dRS.WF ∧ (∀ nm ∈ sColSales.selectedCols, nm ∈ dRS.names)
      ∧ (∀ c, sColSales.filterCol = some c →
          c ∈ (if sColSales.selectedCols.isEmpty then dRS.names
               else sColSales.selectedCols)))
    ∧ ∃ v, applyFilter dRS sColSales = some v
        ∧ v.nrows ≤ min sColSales.rowLimit dRS.nrows
        ∧ (¬ sColSales.selectedCols.isEmpty →
            ∀ nm ∈ v.names, nm ∈ sColSales.selectedCols) :=
  ⟨⟨by decide, by decide, fun c h => Option.noConfusion h⟩,
    C1_apply_total_bounds dRS sColSales (by decide) (by decide)
      (fun c h => Option.noConfusion h)⟩

/-- Claim C2: for each chart kind that needs a numeric Y axis (Bar, Line,
Scatter, Box Plot, Sunburst, Violin, Area), a request with no Y selection
is answered with a Failure value; the dispatcher is a total function, so no
fault is raised. -/
theorem C2_missing_y_failure (v : DF) (nc cc : List String) (x : String)
    (g : Option String) :
    dispatch v nc cc .bar x none g = .failure warnY
    ∧ dispatch v nc cc .line x none g = .failure warnY
    ∧ dispatch v nc cc .scatter x none g = .failure warnY
    ∧ dispatch v nc cc .boxPlot x none g = .failure warnY
    ∧ dispatch v nc cc .sunburst x none g = .failure sunburstMsg
    ∧ dispatch v nc cc .violin x none g = .failure warnY
    ∧ dispatch v nc cc .area x none g = .failure warnY :=
  ⟨rfl, rfl, rfl, rfl, rfl, rfl, rfl⟩

/-- Claim C3: a Scatter request whose X column is categorical (hence not in
the numeric set) and whose Y column is numeric yields a Failure whose
message contains the X column name. -/
theorem C3_scatter_categorical_x (v : DF) (nc cc : List String) (x yc : String)
    (g : Option String) (hcat : x ∈ cc) (hnum : x ∉ nc) (hy : yc ∈ nc) :
    dispatch v nc cc .scatter x (some yc) g = .failure (notNumericScatterMsg x)
    ∧ ∃ pre suf, notNumericScatterMsg x = pre ++ x ++ suf := by
  constructor
  · simp [dispatch, hnum]
  · exact ⟨"⚠️ X axis \x27", "\x27 is not numeric. Scatter needs numeric X & Y", rfl⟩

/-- C3 witness: Scatter on categorical Region against numeric Sales. -/
theorem C3_scatter_categorical_x_witness :
    ("Region" ∈ catColsOf dRS ∧ "Region" ∉ numColsOf dRS
      ∧ "Sales" ∈ numColsOf dRS)
    ∧ (dispatch dRS (numColsOf dRS) (catColsOf dRS) .scatter "Region"
        (some "Sales") none = .failure (notNumericScatterMsg "Region")
      ∧ ∃ pre suf, notNumericScatterMsg "Region" = pre ++ "Region" ++ suf) :=
  ⟨⟨by decide, by decide, by decide⟩,
    C3_scatter_categorical_x dRS (numColsOf dRS) (catColsOf dRS) "Region"
      "Sales" none (by decide) (by decide) (by decide)⟩

/-- Claim C6: a category filter with an empty selected-value set leaves the
view untouched (app.py line 148 `if filter_values:`), so the filtered row
count equals the pre-filter row count. -/
theorem C6_empty_selection_noop (v : DF) (c : String) (col : Col)
    (h : v.col? c = some col) :
    catFilterStep v (some c) [] = some v
    ∧ ∀ w, catFilterStep v (some c) [] = some w → w.nrows = v.nrows := by
  have h1 : catFilterStep v (some c) [] = some v := by
    simp [catFilterStep, h]
  refine ⟨h1, fun w hw => ?_⟩
  rw [h1, Option.some.injEq] at hw
  subst hw; rfl

/-- C6 witness at the Region/Sales table. -/
theorem C6_empty_selection_noop_witness :
    (dRS.col? "Region"
      = some ⟨"Region", .object, [.str "North", .str "South", .str "North"]⟩)
    ∧ (catFilterStep dRS (some "Region") [] = some dRS
      ∧ ∀ w, catFilterStep dRS (some "Region") [] = some w →
          w.nrows = dRS.nrows) :=
  ⟨rfl, C6_empty_selection_noop dRS "Region"
    ⟨"Region", .object, [.str "North", .str "South", .str "North"]⟩ rfl⟩

/-- Claim C10: the Y-axis selector offers exactly `None` plus the numeric
columns (app.py line 223), so any selected `y` is `None` or numeric, and the
Bar, Line and Area branches build their figure with a numeric Y even though
they never test its type. -/
theorem C10_y_selector (nc : List String) (y : Option String)
    (h : y ∈ yAxisOptions nc) :
    (y = none ∨ ∃ c, y = some c ∧ c ∈ nc)
    ∧ (∀ (v : DF) (cc : List String) (x : String) (g : Option String)
        (c : String), y = some c →
        c ∈ nc
        ∧ dispatch v nc cc .bar x y g = .chart (.bar v x c g)
        ∧ dispatch v nc cc .line x y g = .chart (.line v x c g)
        ∧ dispatch v nc cc .area x y g = .chart (.area v x c g)) := by
  have key : ∀ c : String, some c ∈ yAxisOptions nc → c ∈ nc := by
    intro c hcmem
    rw [yAxisOptions] at hcmem
    by_cases hB : nc.isEmpty
    · rw [if_pos hB] at hcmem; simp at hcmem
    · rw [if_neg hB] at hcmem
      rcases List.mem_cons.1 hcmem with h1 | h1
      · exact absurd h1 (by simp)
      · rcases List.mem_map.1 h1 with ⟨c', hc', he⟩
        have := Option.some.inj he
        subst this
        exact hc'
  constructor
  · cases hy : y with
    | none => exact Or.inl rfl
    | some c =>
      subst hy
      exact Or.inr ⟨c, rfl, key c h⟩
  · intro v cc x g c hc
    subst hc
    exact ⟨key c h, rfl, rfl, rfl⟩

/-- C10 witness with the numeric column list `[Sales]`. -/
theorem C10_y_selector_witness :
    (some "Sales" ∈ yAxisOptions ["Sales"])
    ∧ ((some "Sales" = none ∨ ∃ c, some "Sales" = some c ∧ c ∈ ["Sales"])
      ∧ (∀ (v : DF) (cc : List String) (x : String) (g : Option String)
          (c : String), some "Sales" = some c →
          c ∈ ["Sales"]
          ∧ dispatch v ["Sales"] cc .bar x (some "Sales") g
              = .chart (.bar v x c g)
          ∧ dispatch v ["Sales"] cc .line x (some "Sales") g
              = .chart (.line v x c g)
          ∧ dispatch v ["Sales"] cc .area x (some "Sales") g
              = .chart (.area v x c g))) :=
  ⟨by decide, C10_y_selector ["Sales"] (some "Sales") (by decide)⟩

lemma classifier_empty_iff (d : DF) :
    (numColsOf d = [] ∧ catColsOf d = []) ↔ d.cols = [] := by
  constructor
  · rintro ⟨h1, h2⟩
    cases hc : d.cols with
    | nil => rfl
    | cons c t =>
      by_cases hd : c.dtype = Dtype.numeric
      · have hmem : c.name ∈ numColsOf d :=
          List.mem_map.2 ⟨c, List.mem_filter.2 ⟨by rw [hc]; simp, by simp [hd]⟩, rfl⟩
        rw [h1] at hmem; simp at hmem
      · have hmem : c.name ∈ catColsOf d :=
          List.mem_map.2 ⟨c, List.mem_filter.2 ⟨by rw [hc]; simp, by simp [hd]⟩, rfl⟩
        rw [h2] at hmem; simp at hmem
  · intro h; simp [numColsOf, catColsOf, h]

/-- Claim C8: whenever the filter pipeline yields a view with zero rows on
a non-empty dataset, the interaction ends at the empty-result warning
(app.py lines 153-156) and no chart or statistics computation happens. -/
theorem C8_empty_result_warning (d : DF) (s : FilterSpec) (ct : ChartType)
    (x : String) (y g : Option String) (v : DF)
    (hd : d.nrows ≠ 0) (h : applyFilter d s = some v) (hv : v.nrows = 0) :
    runInteraction d s ct x y g = .emptyFilteredWarning emptyFilterWarning := by
  have hcols : d.cols ≠ [] := by
    intro hc; exact hd (by simp [DF.nrows, hc])
  have hcl : ¬ (numColsOf d = [] ∧ catColsOf d = []) := by
    intro hcc; exact hcols ((classifier_empty_iff d).1 hcc)
  simp only [runInteraction, h]
  rw [if_neg hd, if_neg hcl, if_pos hv]

/-- C8 witness: the Region/Sales table with a category filter matching no
row. -/
theorem C8_empty_result_warning_witness :
    (dRS.nrows ≠ 0 ∧ applyFilter dRS sNowhere = some vEmptyRows
      ∧ vEmptyRows.nrows = 0)
    ∧ runInteraction dRS sNowhere .bar "Region" none none
        = .emptyFilteredWarning emptyFilterWarning :=
  ⟨⟨by decide, by decide, by decide⟩,
    C8_empty_result_warning dRS sNowhere .bar "Region" none none vEmptyRows
      (by decide) (by decide) (by decide)⟩

lemma mem_numColsOf {d : DF} {c : String} :
    c ∈ numColsOf d
      ↔ ∃ col, col ∈ d.cols ∧ col.dtype = Dtype.numeric ∧ col.name = c := by
  simp [numColsOf, List.mem_map, List.mem_filter, and_assoc]

lemma mem_catColsOf {d : DF} {c : String} :
    c ∈ catColsOf d
      ↔ ∃ col, col ∈ d.cols ∧ ¬ col.dtype = Dtype.numeric ∧ col.name = c := by
  simp [catColsOf, List.mem_map, List.mem_filter, and_assoc]

/-- Claim C9: the classifier splits the column names into numeric columns
(numeric dtype) and categorical columns (everything else); with distinct
column names each active name lies in exactly one of the two lists, both
for the full dataset and after the column-subset update of app.py lines
139-140. -/
theorem C9_partition (d : DF) (sel : List String) (hnd : d.names.Nodup) :
    (∀ c, c ∈ d.names ↔ (c ∈ numColsOf d ∨ c ∈ catColsOf d))
    ∧ (∀ c, ¬ (c ∈ numColsOf d ∧ c ∈ catColsOf d))
    ∧ (∀ c, c ∈ updateCols d.names sel ↔
        (c ∈ updateCols (numColsOf d) sel ∨ c ∈ updateCols (catColsOf d) sel))
    ∧ (∀ c, ¬ (c ∈ updateCols (numColsOf d) sel
        ∧ c ∈ updateCols (catColsOf d) sel)) := by
  have hunion : ∀ c, c ∈ d.names ↔ (c ∈ numColsOf d ∨ c ∈ catColsOf d) := by
    intro c
    constructor
    · intro hc
      rcases List.mem_map.1 hc with ⟨col, hcol, rfl⟩
      by_cases hd : col.dtype = Dtype.numeric
      · exact Or.inl (mem_numColsOf.2 ⟨col, hcol, hd, rfl⟩)
      · exact Or.inr (mem_catColsOf.2 ⟨col, hcol, hd, rfl⟩)
    · rintro (hc | hc)
      · rcases mem_numColsOf.1 hc with ⟨col, hcol, _, rfl⟩
        exact List.mem_map.2 ⟨col, hcol, rfl⟩
      · rcases mem_catColsOf.1 hc with ⟨col, hcol, _, rfl⟩
        exact List.mem_map.2 ⟨col, hcol, rfl⟩
  have hdisj : ∀ c, ¬ (c ∈ numColsOf d ∧ c ∈ catColsOf d) := by
    rintro c ⟨h1, h2⟩
    rcases mem_numColsOf.1 h1 with ⟨col1, hc1, hd1, hn1⟩
    rcases mem_catColsOf.1 h2 with ⟨col2, hc2, hd2, hn2⟩
    have hcc : col1 = col2 :=
      List.inj_on_of_nodup_map hnd hc1 hc2 (by rw [hn1, hn2])
    rw [hcc] at hd1
    exact hd2 hd1
  refine ⟨hunion, hdisj, ?_, ?_⟩
  · intro c
    simp only [updateCols, List.mem_filter, decide_eq_true_eq]
    constructor
    · rintro ⟨hc, hs⟩
      rcases (hunion c).1 hc with h | h
      · exact Or.inl ⟨h, hs⟩
      · exact Or.inr ⟨h, hs⟩
    · rintro (⟨h, hs⟩ | ⟨h, hs⟩)
      · exact ⟨(hunion c).2 (Or.inl h), hs⟩
      · exact ⟨(hunion c).2 (Or.inr h), hs⟩
  · intro c
    simp only [updateCols, List.mem_filter, decide_eq_true_eq]
    rintro ⟨⟨h1, hs1⟩, ⟨h2, hs2⟩⟩
    exact hdisj c ⟨h1, h2⟩

/-- C9 witness at the Region/Sales table with `[Sales]` selected. -/
theorem C9_partition_witness :
    dRS.names.Nodup
    ∧ ((∀ c, c ∈ dRS.names ↔ (c ∈ numColsOf dRS ∨ c ∈ catColsOf dRS))
      ∧ (∀ c, ¬ (c ∈ numColsOf dRS ∧ c ∈ catColsOf dRS))
      ∧ (∀ c, c ∈ updateCols dRS.names ["Sales"] ↔
          (c ∈ updateCols (numColsOf dRS) ["Sales"]
            ∨ c ∈ updateCols (catColsOf dRS) ["Sales"]))
      ∧ (∀ c, ¬ (c ∈ updateCols (numColsOf dRS) ["Sales"]
          ∧ c ∈ updateCols (catColsOf dRS) ["Sales"]))) :=
  ⟨by decide, C9_partition dRS ["Sales"] (by decide)⟩

lemma insertSorted_perm (a : Value) (l : List Value) :
    (insertSorted a l).Perm (a :: l) := by
  induction l with
  | nil => simp [insertSorted]
  | cons b t ih =>
    rw [insertSorted]
    by_cases h : Value.leB a b
    · rw [if_pos h]
    · rw [if_neg h]
      exact (ih.cons b).trans (List.Perm.swap a b t)

lemma sortVals_perm (l : List Value) : (sortVals l).Perm l := by
  induction l with
  | nil => simp [sortVals]
  | cons a t ih =>
    rw [sortVals]
    exact (insertSorted_perm _ _).trans (ih.cons a)

lemma mem_dedupVals {a : Value} : ∀ {l : List Value}, a ∈ dedupVals l ↔ a ∈ l := by
  intro l
  induction l with
  | nil => simp [dedupVals]
  | cons b t ih =>
    simp only [dedupVals, List.mem_cons, List.mem_filter, decide_eq_true_eq]
    constructor
    · rintro (rfl | ⟨h1, h2⟩)
      · exact Or.inl rfl
      · exact Or.inr (ih.1 h1)
    · rintro (rfl | h)
      · exact Or.inl rfl
      · by_cases hb : a = b
        · exact Or.inl hb
        · exact Or.inr ⟨ih.2 h, hb⟩

lemma nodup_dedupVals : ∀ l : List Value, (dedupVals l).Nodup
  | [] => by simp [dedupVals]
  | a :: t => by
    rw [dedupVals, List.nodup_cons]
    refine ⟨?_, List.Nodup.filter _ (nodup_dedupVals t)⟩
    intro hmem
    rcases List.mem_filter.1 hmem with ⟨h1, h2⟩
    simp at h2

lemma dedupVals_perm (l : List Value) : (dedupVals l).Perm l.dedup := by
  rw [List.perm_ext_iff_of_nodup (nodup_dedupVals l) (List.nodup_dedup l)]
  intro a
  rw [mem_dedupVals, List.mem_dedup]

lemma sum_groupSize (vals : List Value) :
    ((groupSize vals).map (fun p => p.2)).sum
      = (vals.filter (fun a => decide (¬ a = Value.na))).length := by
  set vs := vals.filter (fun a => decide (¬ a = Value.na)) with hvs
  have hperm := (sortVals_perm (dedupVals vs)).trans (dedupVals_perm vs)
  have hsum := (hperm.map (fun k => vs.count k)).sum_eq
  simp only [groupSize, List.map_map]
  have hmc : ∀ k ∈ sortVals (dedupVals vs),
      ((fun p => p.2) ∘ fun k => (k, vs.count k)) k = vs.count k :=
    fun k hk => rfl
  rw [List.map_congr_left hmc, hsum]
  exact List.sum_map_count_dedup_eq_length _

lemma colValues_length {v : DF} {x : String} {col : Col} (hwf : v.WF)
    (h : v.col? x = some col) : (v.colValues x).length = v.nrows := by
  simp [DF.colValues, h, hwf col (col?_mem h)]

/-- Claim C5, amended: a Pie or Donut request on a categorical column
groups the view by that column and emits (category, count) pairs whose
counts sum to the number of rows with a non-missing value in that column
(equal to the view's total row count when the column has no missing cell);
zero groups produce the Failure "No data to display". -/
theorem C5_pie_donut (v : DF) (nc cc : List String) (x : String)
    (y g : Option String) (hx : x ∈ cc) :
    (groupSize (v.colValues x) ≠ [] →
        dispatch v nc cc .pie x y g
          = .chart (.pie (groupSize (v.colValues x)) (distTitle x))
      ∧ dispatch v nc cc .donut x y g
          = .chart (.donut (groupSize (v.colValues x)) (distTitle x)))
    ∧ ((groupSize (v.colValues x)).map (fun p => p.2)).sum
        = ((v.colValues x).filter (fun a => decide (¬ a = Value.na))).length
    ∧ (v.WF → (∃ col, v.col? x = some col) → Value.na ∉ v.colValues x →
        ((groupSize (v.colValues x)).map (fun p => p.2)).sum = v.nrows)
    ∧ (groupSize (v.colValues x) = [] →
        dispatch v nc cc .pie x y g = .failure noDataMsg
      ∧ dispatch v nc cc .donut x y g = .failure noDataMsg) := by
  have hnotnot : ¬ (x ∉ cc) := fun hc => hc hx
  refine ⟨?_, sum_groupSize _, ?_, ?_⟩
  · intro hne
    have hlen : (groupSize (v.colValues x)).length > 0 := List.length_pos.2 hne
    constructor
    · simp [dispatch, hnotnot, hlen]
    · simp [dispatch, hnotnot, hlen]
  · rintro hwf ⟨col, hcol⟩ hna
    rw [sum_groupSize]
    have hfix : (v.colValues x).filter (fun a => decide (¬ a = Value.na))
        = v.colValues x := by
      rw [List.filter_eq_self]
      intro a ha
      simp only [decide_eq_true_eq]
      intro hc
      exact hna (hc ▸ ha)
    rw [hfix, colValues_length hwf hcol]
  · intro hempty
    constructor
    · simp [dispatch, hnotnot, hempty]
    · simp [dispatch, hnotnot, hempty]

/-- Claim C5, counterexample: over a categorical column holding one value
and one missing cell the view has 2 rows but the emitted counts sum to 1,
because `groupby(...).size()` drops rows with a missing key. -/
theorem C5_cex_missing_x :
    "X" ∈ catColsOf dNA
    ∧ dispatch dNA [] (catColsOf dNA) .pie "X" none none
        = .chart (.pie [(Value.str "A", 1)] (distTitle "X"))
    ∧ dNA.nrows = 2
    ∧ (([(Value.str "A", 1)] : List (Value × Nat)).map (fun p => p.2)).sum
        ≠ dNA.nrows := by
  refine ⟨by decide, ?_, rfl, by decide⟩
  rfl

/-- C5 witness: Pie over Region on the Region/Sales table, where no cell is
missing and the counts sum to the row count 3. -/
theorem C5_pie_donut_witness :
    ("Region" ∈ catColsOf dRS)
    ∧ (groupSize (dRS.colValues "Region") ≠ []
      ∧ dispatch dRS (numColsOf dRS) (catColsOf dRS) .pie "Region" none none
          = .chart (.pie (groupSize (dRS.colValues "Region")) (distTitle "Region"))
      ∧ ((groupSize (dRS.colValues "Region")).map (fun p => p.2)).sum
          = dRS.nrows) := by
  have h := C5_pie_donut dRS (numColsOf dRS) (catColsOf dRS) "Region" none none
    (by decide)
  exact ⟨by decide, by decide, (h.1 (by decide)).1,
    h.2.2.1 (by decide) ⟨_, rfl⟩ (by decide)⟩

lemma find?_map_names {sel : List String} {f : String → Col}
    (hf : ∀ nm ∈ sel, (f nm).name = nm) :
    ∀ nm ∈ sel, (sel.map f).find? (fun c => decide (c.name = nm)) = some (f nm) := by
  induction sel with
  | nil => intro nm hnm; simp at hnm
  | cons a t ih =>
    intro nm hnm
    by_cases he : a = nm
    · subst he
      rw [List.map_cons, List.find?_cons_of_pos _ (by simp [hf a (by simp)])]
    · have hmem : nm ∈ t := by
        rcases List.mem_cons.1 hnm with h1 | h1
        · exact absurd h1.symm he
        · exact h1
      rw [List.map_cons, List.find?_cons_of_neg _ (by simp [hf a (by simp), he])]
      exact ih (fun x hx => hf x (by simp [hx])) nm hmem

lemma selectCols_of_all_col? {v : DF} {sel : List String} {f : String → Col}
    (h : ∀ nm ∈ sel, v.col? nm = some (f nm)) :
    selectCols v sel = some (sel.map f) := by
  induction sel with
  | nil => rfl
  | cons a t ih =>
    rw [selectCols, h a (by simp), ih (fun nm hnm => h nm (by simp [hnm]))]
    rfl

lemma select_fix {v : DF} {sel : List String} {f : String → Col}
    (hc : v.cols = sel.map f) (hn : ∀ nm ∈ sel, (f nm).name = nm) :
    v.select sel = some v := by
  have hcol : ∀ nm ∈ sel, v.col? nm = some (f nm) := by
    intro nm hnm
    rw [DF.col?, hc]
    exact find?_map_names hn nm hnm
  have hmk : DF.mk (sel.map f) = v := by rw [← hc]
  simp [DF.select, selectCols_of_all_col? hcol, hmk]

lemma catFilter_fix {v : DF} {c : String} {col : Col} {fvals : List Value}
    (hwf : v.WF) (hc : v.col? c = some col)
    (hall : ∀ a ∈ col.values, a ∈ fvals) (hne : fvals ≠ []) :
    catFilterStep v (some c) fvals = some v := by
  have hfe : fvals.isEmpty = false := by
    cases fvals with
    | nil => exact absurd rfl hne
    | cons a t => rfl
  have hmaskT : ∀ b ∈ col.values.map (fun a => decide (a ∈ fvals)), b = true := by
    intro b hb
    rcases List.mem_map.1 hb with ⟨a, ha, rfl⟩
    simpa using hall a ha
  have hlen : (col.values.map (fun a => decide (a ∈ fvals))).length = v.nrows := by
    simp [hwf col (col?_mem hc)]
  have hcols : maskCols v.cols (col.values.map (fun a => decide (a ∈ fvals)))
      = v.cols := by
    have hpt : ∀ c2 ∈ v.cols,
        (⟨c2.name, c2.dtype,
          applyMask c2.values (col.values.map (fun a => decide (a ∈ fvals)))⟩ : Col)
          = c2 := by
      intro c2 hc2
      have hm : applyMask c2.values (col.values.map (fun a => decide (a ∈ fvals)))
          = c2.values :=
        applyMask_all_true (by rw [hwf c2 hc2, ← hlen]) hmaskT
      simp [hm]
    rw [maskCols, List.map_congr_left hpt]
    simp
  simp [catFilterStep, hc, hfe, hcols]

lemma catFilter_some_cases {v2 : DF} {c : String} {fvals : List Value} {v : DF}
    (h : catFilterStep v2 (some c) fvals = some v) :
    ∃ col, v2.col? c = some col ∧
      ((fvals = [] ∧ v = v2) ∨
       (fvals ≠ [] ∧ v = DF.mk (maskCols v2.cols
          (col.values.map (fun a => decide (a ∈ fvals)))))) := by
  rcases hc : v2.col? c with _ | col
  · simp [catFilterStep, hc] at h
  refine ⟨col, rfl, ?_⟩
  simp only [catFilterStep, hc] at h
  by_cases hfe : fvals.isEmpty
  · rw [if_pos hfe] at h
    left
    exact ⟨by simpa using hfe, (Option.some.inj h).symm⟩
  · rw [if_neg hfe] at h
    right
    refine ⟨?_, (Option.some.inj h).symm⟩
    intro hnil; subst hnil; simp at hfe

lemma catFilter_idem {v2 v : DF} {fc : Option String} {fvals : List Value}
    (hwf2 : v2.WF) (h : catFilterStep v2 fc fvals = some v) :
    catFilterStep v fc fvals = some v := by
  cases fc with
  | none =>
    have hv : v2 = v := by simpa [catFilterStep] using h
    subst hv; rfl
  | some c =>
    rcases catFilter_some_cases h with ⟨col, hcol, hcase⟩
    rcases hcase with ⟨hfe, hveq⟩ | ⟨hne, hveq⟩
    · subst hfe; subst hveq
      simp [catFilterStep, hcol]
    · have hwfm : v.WF := (catFilter_facts hwf2 h).1
      have hcol2 : v.col? c = some ⟨col.name, col.dtype,
          applyMask col.values (col.values.map (fun a => decide (a ∈ fvals)))⟩ := by
        rw [hveq, col?_maskCols, hcol]
        rfl
      have hall : ∀ a ∈ applyMask col.values
          (col.values.map (fun a => decide (a ∈ fvals))), a ∈ fvals := by
        rw [applyMask_map_self]
        intro a ha
        simpa using List.of_mem_filter ha
      exact catFilter_fix hwfm hcol2 hall hne

lemma cols_after_pipeline {v1 : DF} {sel : List String} {v2 v : DF}
    {fc : Option String} {fvals : List Value}
    (hsel : v1.select sel = some v2) (h : catFilterStep v2 fc fvals = some v) :
    ∃ f : String → Col, v.cols = sel.map f ∧ ∀ nm ∈ sel, (f nm).name = nm := by
  rcases select_parts hsel with ⟨cs, hcs, rfl⟩
  rcases selectCols_eq_map hcs with ⟨hcsmap, hsome⟩
  have hgname : ∀ nm ∈ sel, ((v1.col? nm).getD defCol).name = nm := by
    intro nm hnm
    rcases Option.isSome_iff_exists.1 (hsome nm hnm) with ⟨colnm, hcol⟩
    rw [hcol]
    exact col?_name hcol
  rcases catFilter_id_or_mask h with hveq | ⟨c, col, hfc, hcol, hne, hveq⟩
  · subst hveq
    exact ⟨fun nm => (v1.col? nm).getD defCol, hcsmap, hgname⟩
  · subst hveq
    refine ⟨fun nm =>
      (⟨((v1.col? nm).getD defCol).name, ((v1.col? nm).getD defCol).dtype,
        applyMask ((v1.col? nm).getD defCol).values
          (col.values.map (fun a => decide (a ∈ fvals)))⟩ : Col), ?_, ?_⟩
    · show maskCols cs (col.values.map (fun a => decide (a ∈ fvals))) = _
      rw [hcsmap, maskCols, List.map_map]
      rfl
    · intro nm hnm
      simpa using hgname nm hnm

/-- Claim C7: the filter pipeline is idempotent — applying the same Filter
Spec to its own output reproduces that output exactly. -/
theorem C7_idempotent (d : DF) (s : FilterSpec) (v : DF) (hwf : d.WF)
    (h : applyFilter d s = some v) : applyFilter v s = some v := by
  have hwf1 : (d.head s.rowLimit).WF := WF_head hwf _
  simp only [applyFilter] at h
  by_cases hB : s.selectedCols.isEmpty
  · rw [if_pos hB] at h
    have h' : catFilterStep (d.head s.rowLimit) s.filterCol s.filterValues
        = some v := h
    rcases catFilter_facts hwf1 h' with ⟨hwfv, hle, hnamesv⟩
    have hnle : v.nrows ≤ s.rowLimit := by
      calc v.nrows ≤ (d.head s.rowLimit).nrows := hle
        _ = min s.rowLimit d.nrows := nrows_head d _
        _ ≤ s.rowLimit := min_le_left _ _
    simp only [applyFilter]
    rw [head_fix hwfv hnle, if_pos hB]
    exact catFilter_idem hwf1 h'
  · rw [if_neg hB] at h
    rcases hsel : (d.head s.rowLimit).select s.selectedCols with _ | v2
    · rw [hsel] at h
      exact absurd (h : (none : Option DF) = some v) (by simp)
    rw [hsel] at h
    have h' : catFilterStep v2 s.filterCol s.filterValues = some v := h
    have hwf2 : v2.WF := select_WF hwf1 hsel
    rcases catFilter_facts hwf2 h' with ⟨hwfv, hle, hnamesv⟩
    have hne : s.selectedCols ≠ [] := by simpa using hB
    have hnle : v.nrows ≤ s.rowLimit := by
      calc v.nrows ≤ v2.nrows := hle
        _ = (d.head s.rowLimit).nrows := select_nrows hwf1 hsel hne
        _ = min s.rowLimit d.nrows := nrows_head d _
        _ ≤ s.rowLimit := min_le_left _ _
    rcases cols_after_pipeline hsel h' with ⟨f, hcols, hnamesf⟩
    have hselfix : v.select s.selectedCols = some v := select_fix hcols hnamesf
    simp only [applyFilter]
    rw [head_fix hwfv hnle, if_neg hB, hselfix]
    exact catFilter_idem hwf2 h'

/-- C7 witness: the Region/Sales table, both columns kept, filtered to the
North rows of the first two rows. -/
theorem C7_idempotent_witness :
    (dRS.WF ∧ applyFilter dRS sNorth = some vNorth)
    ∧ applyFilter vNorth sNorth = some vNorth :=
  ⟨⟨by decide, by decide⟩,
    C7_idempotent dRS sNorth vNorth (by decide) (by decide)⟩

lemma pairComplete_cons (a b : Option ℚ) (as bs : List (Option ℚ)) :
    pairComplete (a :: as) (b :: bs)
      = match a, b with
        | some x, some y => (x, y) :: pairComplete as bs
        | _, _ => pairComplete as bs := by
  cases a <;> cases b <;> simp [pairComplete]

lemma pairComplete_swap : ∀ xs ys : List (Option ℚ),
    pairComplete ys xs = (pairComplete xs ys).map (fun p => (p.2, p.1))
  | [], ys => by cases ys <;> simp [pairComplete]
  | x :: xt, [] => by simp [pairComplete]
  | x :: xt, y :: yt => by
    rw [pairComplete_cons, pairComplete_cons]
    cases x <;> cases y <;> simp [pairComplete_swap xt yt]

lemma sAB_swap (ps : List (ℚ × ℚ)) :
    sAB (ps.map (fun p => (p.2, p.1))) = sAB ps := by
  have hfst : (ps.map (fun p => (p.2, p.1))).map (fun p : ℚ × ℚ => p.1)
      = ps.map (fun p => p.2) := by
    rw [List.map_map]; rfl
  have hsnd : (ps.map (fun p => (p.2, p.1))).map (fun p : ℚ × ℚ => p.2)
      = ps.map (fun p => p.1) := by
    rw [List.map_map]; rfl
  simp only [sAB]
  rw [hfst, hsnd, List.map_map]
  congr 1
  apply List.map_congr_left
  intro p hp
  show (p.2 - qmean (ps.map (fun p => p.2))) * (p.1 - qmean (ps.map (fun p => p.1)))
      = (p.1 - qmean (ps.map (fun p => p.1))) * (p.2 - qmean (ps.map (fun p => p.2)))
  ring

lemma pairComplete_self : ∀ xs : List (Option ℚ),
    pairComplete xs xs = (xs.filterMap id).map (fun a => (a, a))
  | [] => by simp [pairComplete]
  | x :: xt => by
    rw [pairComplete_cons]
    cases x <;> simp [pairComplete_self xt]

lemma sXX_self (xs : List (Option ℚ)) :
    sXX xs xs = sAB (pairComplete xs xs) := by
  have hmap : (pairComplete xs xs).map (fun p : ℚ × ℚ => (p.1, p.1))
      = pairComplete xs xs := by
    rw [pairComplete_self, List.map_map]
    rfl
  simp only [sXX]
  rw [hmap]

lemma sYY_self (xs : List (Option ℚ)) : sYY xs xs = sXX xs xs := by
  have hmap : (pairComplete xs xs).map (fun p : ℚ × ℚ => (p.2, p.2))
      = (pairComplete xs xs).map (fun p : ℚ × ℚ => (p.1, p.1)) := by
    rw [pairComplete_self, List.map_map, List.map_map]
    rfl
  simp only [sXX, sYY]
  rw [hmap]

lemma sAB_nonneg_of_diag {ps : List (ℚ × ℚ)} (hd : ∀ p ∈ ps, p.1 = p.2) :
    0 ≤ sAB ps := by
  have hmaps : ps.map (fun p => p.1) = ps.map (fun p => p.2) :=
    List.map_congr_left hd
  simp only [sAB]
  rw [← hmaps]
  apply List.sum_nonneg
  intro q hq
  rcases List.mem_map.1 hq with ⟨p, hp, rfl⟩
  have hp12 := hd p hp
  rw [← hp12]
  exact mul_self_nonneg _

lemma sXX_self_nonneg (xs : List (Option ℚ)) : 0 ≤ sXX xs xs := by
  rw [sXX_self]
  apply sAB_nonneg_of_diag
  intro p hp
  rw [pairComplete_self] at hp
  rcases List.mem_map.1 hp with ⟨a, ha, rfl⟩
  rfl

lemma corrEntry_self {xs : List (Option ℚ)} (h : sXX xs xs ≠ 0) :
    corrEntry xs xs = some 1 := by
  have hpos : 0 < sXX xs xs := lt_of_le_of_ne (sXX_self_nonneg xs) (Ne.symm h)
  simp only [corrEntry]
  rw [sYY_self]
  rw [if_neg (by simp [h])]
  rw [← sXX_self]
  congr 1
  have hs : (0:ℝ) ≤ (sXX xs xs : ℝ) := by exact_mod_cast hpos.le
  rw [Real.sqrt_mul_self hs]
  rw [div_self (by exact_mod_cast h)]

lemma corrEntry_symm (xs ys : List (Option ℚ)) :
    corrEntry xs ys = corrEntry ys xs := by
  have hpc := pairComplete_swap xs ys
  have hXX : sXX ys xs = sYY xs ys := by
    simp only [sXX, sYY]
    rw [hpc, List.map_map]
    rfl
  have hYY : sYY ys xs = sXX xs ys := by
    simp only [sXX, sYY]
    rw [hpc, List.map_map]
    rfl
  have hAB : sAB (pairComplete ys xs) = sAB (pairComplete xs ys) := by
    rw [hpc, sAB_swap]
  simp only [corrEntry]
  rw [hXX, hYY, hAB]
  by_cases hc : sXX xs ys = 0 ∨ sYY xs ys = 0
  · rw [if_pos hc, if_pos (Or.symm hc)]
  · rw [if_neg hc, if_neg (fun hcc => hc (Or.symm hcc))]
    rw [mul_comm]

/-- Claim C4, amended: Heatmap with fewer than 2 numeric columns always
fails; with at least 2 it returns the pairwise Pearson correlation matrix
over all current numeric columns; with exactly 2 numeric columns the matrix
is 2-by-2 and symmetric, and each diagonal entry equals 1.0 provided that
column's centered square sum is nonzero — a constant column (or a single
complete observation) makes `corr()` emit NaN on the diagonal instead. -/
theorem C4_heatmap (v : DF) (nc cc : List String) (x : String)
    (y g : Option String) :
    (nc.length < 2 → dispatch v nc cc .heatmap x y g = .failure heatmapMsg)
    ∧ (2 ≤ nc.length → dispatch v nc cc .heatmap x y g
        = .chart (.heatmap (corrMatrix v nc)))
    ∧ (∀ a b, nc = [a, b] →
        corrMatrix v nc =
          [[corrEntry (v.numValues a) (v.numValues a),
            corrEntry (v.numValues a) (v.numValues b)],
           [corrEntry (v.numValues b) (v.numValues a),
            corrEntry (v.numValues b) (v.numValues b)]]
        ∧ corrEntry (v.numValues a) (v.numValues b)
            = corrEntry (v.numValues b) (v.numValues a)
        ∧ (sXX (v.numValues a) (v.numValues a) ≠ 0 →
            corrEntry (v.numValues a) (v.numValues a) = some 1)
        ∧ (sXX (v.numValues b) (v.numValues b) ≠ 0 →
            corrEntry (v.numValues b) (v.numValues b) = some 1)) := by
  refine ⟨?_, ?_, ?_⟩
  · intro hlt
    simp [dispatch, hlt]
  · intro hge
    have hnlt : ¬ nc.length < 2 := not_lt.2 hge
    simp [dispatch, hnlt]
  · rintro a b rfl
    exact ⟨by simp [corrMatrix], corrEntry_symm _ _,
      fun h => corrEntry_self h, fun h => corrEntry_self h⟩

/-- Claim C4, counterexample: with the two numeric columns A = [1,1] and
B = [1,2] (a non-empty view, exactly 2 numeric columns), the diagonal entry
for the constant column A is NaN (modelled `none`), not 1.0. -/
theorem C4_cex_constant_column :
    numColsOf dConst = ["A", "B"]
    ∧ dispatch dConst ["A", "B"] [] .heatmap "A" none none
        = .chart (.heatmap (corrMatrix dConst ["A", "B"]))
    ∧ dConst.nrows = 2
    ∧ (corrMatrix dConst ["A", "B"]).headI.headI = none
    ∧ (corrMatrix dConst ["A", "B"]).headI.headI ≠ some (1 : ℝ) := by
  have hpc : pairComplete [some (1:ℚ), some 1] [some (1:ℚ), some 1]
      = [(1, 1), (1, 1)] := rfl
  have hxx : sXX (dConst.numValues "A") (dConst.numValues "A") = 0 := by
    show sXX [some 1, some 1] [some 1, some 1] = 0
    simp only [sXX, hpc]
    norm_num [sAB, qmean, List.map_cons, List.map_nil, List.sum_cons,
      List.sum_nil]
  have hentry : corrEntry (dConst.numValues "A") (dConst.numValues "A")
      = none := by
    simp only [corrEntry]
    rw [if_pos (Or.inl hxx)]
  have hred : (corrMatrix dConst ["A", "B"]).headI.headI
      = corrEntry (dConst.numValues "A") (dConst.numValues "A") := rfl
  refine ⟨by decide, by simp [dispatch], rfl, ?_, ?_⟩
  · rw [hred, hentry]
  · rw [hred, hentry]
    simp

/-- C4 witness: two non-constant numeric columns, where the success branch,
the symmetry and both unit diagonal entries are realized. -/
theorem C4_heatmap_witness :
    (2 ≤ (["A", "B"] : List String).length ∧ numColsOf dVar = ["A", "B"]
      ∧ sXX (dVar.numValues "A") (dVar.numValues "A") ≠ 0
      ∧ sXX (dVar.numValues "B") (dVar.numValues "B") ≠ 0)
    ∧ (dispatch dVar ["A", "B"] [] .heatmap "A" none none
        = .chart (.heatmap (corrMatrix dVar ["A", "B"]))
      ∧ corrEntry (dVar.numValues "A") (dVar.numValues "B")
          = corrEntry (dVar.numValues "B") (dVar.numValues "A")
      ∧ corrEntry (dVar.numValues "A") (dVar.numValues "A") = some 1
      ∧ corrEntry (dVar.numValues "B") (dVar.numValues "B") = some 1) := by
  have h := C4_heatmap dVar ["A", "B"] [] "A" none none
  have h2 := h.2.2 "A" "B" rfl
  have hpcA : pairComplete [some (0:ℚ), some 1] [some (0:ℚ), some 1]
      = [(0, 0), (1, 1)] := rfl
  have hpcB : pairComplete [some (2:ℚ), some 0] [some (2:ℚ), some 0]
      = [(2, 2), (0, 0)] := rfl
  have hxxA : sXX (dVar.numValues "A") (dVar.numValues "A") ≠ 0 := by
    show sXX [some 0, some 1] [some 0, some 1] ≠ 0
    simp only [sXX, hpcA]
    norm_num [sAB, qmean, List.map_cons, List.map_nil, List.sum_cons,
      List.sum_nil]
  have hxxB : sXX (dVar.numValues "B") (dVar.numValues "B") ≠ 0 := by
    show sXX [some 2, some 0] [some 2, some 0] ≠ 0
    simp only [sXX, hpcB]
    norm_num [sAB, qmean, List.map_cons, List.map_nil, List.sum_cons,
      List.sum_nil]
  exact ⟨⟨by decide, by decide, hxxA, hxxB⟩,
    h.2.1 (by decide), h2.2.1, h2.2.2.1 hxxA, h2.2.2.2 hxxB⟩

end Dash
